import Mathlib

/-!
Verification development for the row-ordering and row-grouping engine of a
columnar table library (multi-column lexicographic row comparator,
permutation-sort entry points, and the sort-based group-by engine).

The concrete sort implementation of the repository is not part of the
source tree (only its tests and the group-by class declaration are), so the
operational definitions below are modelled from the specification, with the
behaviour pinned down by the repository's test expectations
(`cpp/tests/sort/sort_test.cpp`, `cpp/tests/groupby/mean_tests.cpp`) where
the tests speak.
-/

namespace Cudf

/-- Sort direction directive for one column (`cudf::order`). -/
inductive SortDir where
  | ASCENDING
  | DESCENDING
deriving DecidableEq, Repr

/-- Null-placement directive for one column (`cudf::null_order`):
`BEFORE` means a null compares as less than every non-null value,
`AFTER` as greater. -/
inductive NullOrder where
  | BEFORE
  | AFTER
deriving DecidableEq, Repr

/-- Three-valued weak-ordering result of an element comparison. -/
inductive WOrd where
  | LESS
  | EQUIVALENT
  | GREATER
deriving DecidableEq, Repr

/-- Primitive (non-nested) cell payloads: fixed-width numeric, temporal,
decimal (all represented by their integral ordering key) and strings. -/
inductive PVal where
  | int (n : Int)
  | str (s : String)
deriving DecidableEq, Repr

/-- A fully materialised cell of a (possibly nested) column at one row:
a primitive null, a primitive value, a null struct row, or a valid struct
row with one cell per child column. -/
inductive Cell where
  | pnull
  | pval (v : PVal)
  | snull
  | sval (children : List Cell)

/-- Does a cell come from a struct column? (Struct-typed children are the
ones whose nested null handling is special-cased.) -/
def Cell.isStructCell : Cell → Bool
  | .snull => true
  | .sval _ => true
  | _ => false

/-- Is a cell a (top-level) null? -/
def Cell.isNullCell : Cell → Bool
  | .pnull => true
  | .snull => true
  | _ => false

/-- Result of comparing a null against a non-null under a null-placement
policy: with `BEFORE` the null side is less, with `AFTER` it is greater. -/
def nullRes (lhsIsNull : Bool) (no : NullOrder) : WOrd :=
  match lhsIsNull, no with
  | true, .BEFORE => .LESS
  | true, .AFTER => .GREATER
  | false, .BEFORE => .GREATER
  | false, .AFTER => .LESS

/-- Code-unit comparison of characters. -/
def chLt (a b : Char) : Bool := a.toNat < b.toNat

/-- Lexicographic code-unit comparison of character sequences. -/
def strLtL : List Char → List Char → Bool
  | [], _ :: _ => true
  | _, [] => false
  | c :: cs, d :: ds => chLt c d || (c.toNat == d.toNat && strLtL cs ds)

/-- Lexicographic code-unit comparison of strings. -/
def strLt (a b : String) : Bool := strLtL a.data b.data

/-- Natural ordering of primitive values: numeric/temporal/decimal compare
by underlying value, strings by code-unit lexicographic order.
Heterogeneous pairs do not arise in well-typed tables and are treated as
equivalent. -/
def comparePV : PVal → PVal → WOrd
  | .int a, .int b => if a < b then .LESS else if b < a then .GREATER else .EQUIVALENT
  | .str a, .str b =>
    if strLt a b then .LESS else if strLt b a then .GREATER else .EQUIVALENT
  | _, _ => .EQUIVALENT

mutual

/-- Weak-ordering comparison of two cells of the same column under a
null-placement policy `no`.  Struct rows first compare their own validity
(one side null decides via `no`; both null are equivalent without looking
at children); valid struct rows recurse into the child cells in
child-declaration order. -/
def compareCell (no : NullOrder) : Cell → Cell → WOrd
  | .pnull, .pnull => .EQUIVALENT
  | .pnull, .pval _ => nullRes true no
  | .pval _, .pnull => nullRes false no
  | .pval a, .pval b => comparePV a b
  | .snull, .snull => .EQUIVALENT
  | .snull, .sval _ => nullRes true no
  | .sval _, .snull => nullRes false no
  | .sval as, .sval bs => compareCellList no as bs
  | _, _ => .EQUIVALENT

/-- Left-to-right comparison of the child cells of a struct row: the first
non-equivalent child decides.  Leaf (non-struct) children inherit the
null-placement policy of the enclosing top-level column, while a nested
struct child's own validity (and everything below it) uses `BEFORE`
placement. -/
def compareCellList (no : NullOrder) : List Cell → List Cell → WOrd
  | a :: as, b :: bs =>
    match compareCell (if a.isStructCell then NullOrder.BEFORE else no) a b with
    | .EQUIVALENT => compareCellList no as bs
    | r => r
  | _, _ => .EQUIVALENT

end

/-- A column view: leaf columns carry their values (with `none` marking a
null per the validity mask; an absent mask is represented by all-`some`
values), struct columns carry a whole-row validity mask (an empty list
meaning "no mask, all rows valid") plus child columns sharing the parent's
underlying row space.  Every view also carries an element `offset` and a
visible row count `size`, so that sliced (offset, reduced-length) views are
first-class, as in the library's `column_view`. -/
inductive Column where
  | prim (vals : List (Option PVal)) (offset : Nat) (size : Nat)
  | strct (valid : List Bool) (children : List Column) (offset : Nat) (size : Nat)

/-- Visible row count of a column view. -/
def Column.size : Column → Nat
  | .prim _ _ sz => sz
  | .strct _ _ _ sz => sz

/-- Element offset of a column view. -/
def Column.offset : Column → Nat
  | .prim _ off _ => off
  | .strct _ _ off _ => off

mutual

/-- The materialised cell of a column view at visible row `r`.  Leaf cells
read the value buffer at `offset + r`; struct cells read the row validity
at `offset + r` (a null struct row hides its children entirely, as the
library superimposes parent nulls) and otherwise materialise each child at
underlying row `offset + r` — children of a sliced struct are read through
the parent's offset, like `get_sliced_child`.  Rows at or beyond `size` are
not visible and read as null. -/
def Column.cell (c : Column) (r : Nat) : Cell :=
  match c with
  | .prim vals off sz =>
    if r < sz then
      match vals.getD (off + r) none with
      | none => .pnull
      | some v => .pval v
    else .pnull
  | .strct valid children off sz =>
    if r < sz then
      if valid.getD (off + r) true then .sval (cellList children (off + r))
      else .snull
    else .snull

/-- The cells of a list of child columns at underlying row `r`. -/
def cellList : List Column → Nat → List Cell
  | [], _ => []
  | c :: cs, r => c.cell r :: cellList cs r

end

/-- A table: an ordered sequence of columns, all sharing one row count. -/
abbrev Table := List Column

/-- Number of rows of a table (the row count shared by its columns; `0` for
a table with no columns). -/
def Table.nrows : Table → Nat
  | [] => 0
  | c :: _ => c.size

/-- Number of columns of a table. -/
def Table.ncols (t : Table) : Nat := t.length

/-- The materialised row of a table at row index `r`: one cell per column,
in declared column order. -/
def Table.row (t : Table) (r : Nat) : List Cell := t.map (fun c => c.cell r)

/-- Lexicographic "less" over two materialised rows, given the per-column
direction and null-placement directives (missing directives default to
`ASCENDING` and `BEFORE`).  Columns are evaluated left to right; the first
column whose cells are not equivalent decides: its weak ordering yields
"less" for `LESS` under `ASCENDING` and for `GREATER` under `DESCENDING`.
Rows equivalent on every column are not "less" either way. -/
def lexLess : List Cell → List Cell → List SortDir → List NullOrder → Bool
  | a :: as, b :: bs, ds, ns =>
    match compareCell (ns.headD .BEFORE) a b with
    | .EQUIVALENT => lexLess as bs ds.tail ns.tail
    | .LESS => ds.headD .ASCENDING == .ASCENDING
    | .GREATER => ds.headD .ASCENDING == .DESCENDING
  | _, _, _, _ => false

/-- The row lexicographic comparator: strict "less" over two row indices of
a table under the given directives. -/
def rowLess (t : Table) (ds : List SortDir) (ns : List NullOrder) (i j : Nat) : Bool :=
  lexLess (t.row i) (t.row j) ds ns

/-- Row equality per the comparator's null/value rules (direction and
null placement are irrelevant to equivalence): every column equivalent. -/
def cellsEquiv : List Cell → List Cell → Bool
  | [], [] => true
  | a :: as, b :: bs => (compareCell .BEFORE a b == .EQUIVALENT) && cellsEquiv as bs
  | _, _ => false

/-- Row-equality comparator over two row indices of a table. -/
def rowsEquiv (t : Table) (i j : Nat) : Bool := cellsEquiv (t.row i) (t.row j)

/-- Insert `x` into a list just before the first element that is not
strictly less than `x` — the insertion step of a stable insertion sort. -/
def insStable (lt : α → α → Bool) (x : α) : List α → List α
  | [] => [x]
  | y :: ys => if lt y x then y :: insStable lt x ys else x :: y :: ys

/-- Stable insertion sort by a strict "less" comparator: elements that
compare equal keep their original relative order. -/
def isort (lt : α → α → Bool) : List α → List α
  | [] => []
  | x :: xs => insStable lt x (isort lt xs)

/-- The permutation realising the requested row order: the row indices
`0, …, nrows-1` sorted by the row lexicographic comparator (computed
stably, which is one conformant realisation for the unstable entry point
and the required one for the stable entry point). -/
def sortedOrderU (t : Table) (ds : List SortDir) (ns : List NullOrder) : List Nat :=
  isort (rowLess t ds ns) (List.range t.nrows)

/-- Directive validation shared by the four entry points: each directive
list must either be empty (defaults apply to every column) or have exactly
one entry per participating column. -/
def directivesOk (t : Table) (ds : List SortDir) (ns : List NullOrder) : Bool :=
  (ds.isEmpty || ds.length == t.ncols) && (ns.isEmpty || ns.length == t.ncols)

/-- Modelled from the spec: `sorted_order(table, directives)` — validates
the directive lists, then returns the permutation realising the requested
order; a directive-count mismatch is a usage error with no partial
result.  (The repository's implementation file is absent from the source
tree; behaviour is pinned by `sort_test.cpp`.) -/
def sorted_order (t : Table) (ds : List SortDir) (ns : List NullOrder) :
    Except String (List Nat) :=
  if directivesOk t ds ns then .ok (sortedOrderU t ds ns)
  else .error ("Mismatch between number of columns and directive size")

/-- Modelled from the spec: `stable_sorted_order(table, directives)` — same
validation as `sorted_order`; rows comparing equal retain their original
relative row-index order. -/
def stable_sorted_order (t : Table) (ds : List SortDir) (ns : List NullOrder) :
    Except String (List Nat) :=
  if directivesOk t ds ns then .ok (sortedOrderU t ds ns)
  else .error ("Mismatch between number of columns and directive size")

mutual

/-- Materialise a new column by indexed row selection (`gather`): the
result holds the selected rows contiguously at offset `0`. -/
def gatherCol (c : Column) (idx : List Nat) : Column :=
  match c with
  | .prim vals off _ =>
    .prim (idx.map (fun r => vals.getD (off + r) none)) 0 idx.length
  | .strct valid children off _ =>
    .strct (idx.map (fun r => valid.getD (off + r) true))
      (gatherColList children (idx.map (fun r => off + r))) 0 idx.length

/-- Gather each column of a list of child columns. -/
def gatherColList : List Column → List Nat → List Column
  | [], _ => []
  | c :: cs, idx => gatherCol c idx :: gatherColList cs idx

end

/-- Materialise a new table by indexed row selection. -/
def gatherTable (t : Table) (idx : List Nat) : Table :=
  t.map (fun c => gatherCol c idx)

/-- Modelled from the spec: `sort(table, directives)` returns
`gather(table, sorted_order(table, directives))`. -/
def sort (t : Table) (ds : List SortDir) (ns : List NullOrder) : Except String Table :=
  (sorted_order t ds ns).map (fun p => gatherTable t p)

/-- Modelled from the spec: `sort_by_key(values, keys, directives)` returns
`gather(values, sorted_order(keys, directives))` and requires equal row
counts between values and keys, else fails with a usage error. -/
def sort_by_key (values keys : Table) (ds : List SortDir) (ns : List NullOrder) :
    Except String Table :=
  if values.nrows == keys.nrows then
    (sorted_order keys ds ns).map (fun p => gatherTable values p)
  else .error ("Mismatch in number of rows for values and keys")

/-- A sliced (offset, reduced-length) view of a column: visible rows
`s, …, s+len-1` of the input view.  Only the top-level offset and size
move; children are reinterpreted through the parent offset on access. -/
def sliceCol (c : Column) (s len : Nat) : Column :=
  match c with
  | .prim vals off _ => .prim vals (off + s) len
  | .strct valid children off _ => .strct valid children (off + s) len

/-- A sliced view of a table. -/
def sliceTable (t : Table) (s len : Nat) : Table := t.map (fun c => sliceCol c s len)

/-- The null cell of a column's kind. -/
def Column.nullCell : Column → Cell
  | .prim _ _ _ => .pnull
  | .strct _ _ _ _ => .snull

/-- Well-formedness of a column view: each struct's children must carry
rows covering the parent's visible `offset + size` range, recursively. -/
inductive ColWF : Column → Prop where
  | prim (vals : List (Option PVal)) (off sz : Nat) : ColWF (.prim vals off sz)
  | strct (valid : List Bool) (children : List Column) (off sz : Nat)
      (hsz : ∀ ch ∈ children, off + sz ≤ ch.size)
      (hwf : ∀ ch ∈ children, ColWF ch) :
      ColWF (.strct valid children off sz)

/-- The visible cells of a column view, in row order. -/
def Column.cells (c : Column) : List Cell := (List.range c.size).map c.cell

/-- Is the key row `r` wholly or partially null, per the top-level column
null check (deep struct-child nulls do not count)? -/
def keyRowHasNull (t : Table) (r : Nat) : Bool :=
  t.any (fun c => (c.cell r).isNullCell)

/-- Modelled from the spec: the sort-based group-by engine
(`cudf::detail::groupby` of `quantiles/groupby.hpp`; its member-function
implementation file is absent from the source tree).  All cached state is
computed at construction, mirroring the constructor's eager calls to
`set_key_sort_order`, `set_group_ids`, `set_group_labels` and
`set_unsorted_labels`. -/
structure Groupby where
  keyTable : Table
  includeNulls : Bool
  /-- sort order indices for the key table (ascending, nulls before) -/
  keySortedOrder : List Nat
  /-- starting offsets of each group in the sorted key table -/
  groupIds : List Nat
  /-- per sorted row, the group it belongs to (`none` for excluded rows) -/
  groupLabels : List (Option Nat)
  /-- group labels scattered back to original row order -/
  unsortedLabels : List (Option Nat)

/-- Is sorted position `p` included in group formation?  With
`include_nulls = false`, rows whose key row is wholly or partially null are
excluded. -/
def gbValid (keys : Table) (inc : Bool) (order : List Nat) (p : Nat) : Bool :=
  inc || !keyRowHasNull keys (order.getD p 0)

/-- The internal key sort order: ascending direction and `BEFORE`
null-placement on every key column (empty directive lists denote the
defaults). -/
def gbOrder (keys : Table) : List Nat := sortedOrderU keys [] []

/-- Does sorted position `p` start a group?  An included position starts a
group when it is position 0, its predecessor is excluded, or its key row
differs from its predecessor's. -/
def gbPred (keys : Table) (inc : Bool) (p : Nat) : Bool :=
  gbValid keys inc (gbOrder keys) p &&
    (p == 0 || !gbValid keys inc (gbOrder keys) (p - 1) ||
      !rowsEquiv keys ((gbOrder keys).getD (p - 1) 0) ((gbOrder keys).getD p 0))

/-- The group starting offsets: the sorted positions that start a group. -/
def gbIds (keys : Table) (inc : Bool) : List Nat :=
  (List.range keys.nrows).filter (gbPred keys inc)

/-- The per-sorted-position group labels: for an included position, the
index of the group interval it falls into (the number of group starts at
or before it, minus one); the sentinel `none` for excluded positions. -/
def gbLabels (keys : Table) (inc : Bool) : List (Option Nat) :=
  (List.range keys.nrows).map (fun p =>
    if gbValid keys inc (gbOrder keys) p then
      some (((gbIds keys inc).filter (fun q => decide (q ≤ p))).length - 1)
    else none)

/-- The group labels scattered back to original row order. -/
def gbUnsorted (keys : Table) (inc : Bool) : List (Option Nat) :=
  (List.range keys.nrows).map (fun r =>
    (gbLabels keys inc).getD ((gbOrder keys).indexOf r) none)

/-- Construct the engine from a key table and a null-inclusion flag: sort
the keys ascending with nulls-before, mark group starts where an included
sorted row is the first included one or differs from its predecessor,
derive per-sorted-row labels and scatter them to original row order.
Excluded rows stay in the sorted order but start no group and carry the
sentinel (`none`) label. -/
def Groupby.build (keys : Table) (inc : Bool) : Groupby :=
  ⟨keys, inc, gbOrder keys, gbIds keys inc, gbLabels keys inc, gbUnsorted keys inc⟩

/-- `num_groups()`: the number of groups in the key table. -/
def Groupby.num_groups (g : Groupby) : Nat := g.groupIds.length

/-- `group_indices()`: the starting offsets of the groups in sorted-order
space. -/
def Groupby.group_indices (g : Groupby) : List Nat := g.groupIds

/-- The `[start, stop)` extents of the groups in sorted-order space: each
group runs from its starting offset to the next group's start (the last to
the end of the table). -/
def Groupby.groupBounds (g : Groupby) : List (Nat × Nat) :=
  g.groupIds.zip (g.groupIds.tail ++ [g.keyTable.nrows])

/-- `unique_keys()`: one representative key row per group — the sorted key
table gathered at the group starting offsets. -/
def Groupby.unique_keys (g : Groupby) : Table :=
  gatherTable g.keyTable (g.groupIds.map (fun p => g.keySortedOrder.getD p 0))

/-- "less" for the secondary per-group value sort: ascending, nulls last. -/
def valCellLt (a b : Cell) : Bool := compareCell .AFTER a b == .LESS

/-- `sort_values(value_column)`: gather the value column by the key sort
order (grouping it contiguously per the group extents), sort each group's
sub-range ascending with nulls last, and count the non-null entries of each
group's sub-range.  Rows excluded from grouping keep their gathered cells
in place ahead of the first group. -/
def Groupby.sort_values (g : Groupby) (v : Column) : List Cell × List Nat :=
  let cells := g.keySortedOrder.map (fun r => v.cell r)
  let bounds := g.groupBounds
  let front := cells.take (g.groupIds.headD g.keyTable.nrows)
  (front ++ (bounds.map (fun se => isort valCellLt ((cells.drop se.1).take (se.2 - se.1)))).flatten,
   bounds.map (fun se => ((cells.drop se.1).take (se.2 - se.1)).countP (fun c => !c.isNullCell)))

/-- The public operations of a constructed group-by engine instance. -/
inductive GbOp where
  | numGroupsOp
  | groupIndicesOp
  | uniqueKeysOp
  | sortValuesOp (v : Column)

/-- Observable outputs of the public group-by operations. -/
inductive GbOut where
  | countOut (n : Nat)
  | indicesOut (l : List Nat)
  | tableOut (t : Table)
  | groupedOut (cells : List Cell) (counts : List Nat)

/-- Run one public operation against an engine instance, returning its
output and the (unchanged) instance state — the operations only read the
cached state computed at construction. -/
def Groupby.runOp (g : Groupby) : GbOp → GbOut × Groupby
  | .numGroupsOp => (.countOut g.num_groups, g)
  | .groupIndicesOp => (.indicesOut g.group_indices, g)
  | .uniqueKeysOp => (.tableOut g.unique_keys, g)
  | .sortValuesOp v => (.groupedOut (g.sort_values v).1 (g.sort_values v).2, g)

/-- Run a sequence of public operations, threading the instance state. -/
def Groupby.runOps (g : Groupby) : List GbOp → List GbOut × Groupby
  | [] => ([], g)
  | op :: ops =>
    ((g.runOp op).1 :: ((g.runOp op).2.runOps ops).1, ((g.runOp op).2.runOps ops).2)

/-! ### Concrete fixtures from the repository's tests -/

/-- An all-valid integer leaf column. -/
def colI (l : List (Option Int)) : Column := .prim (l.map (Option.map PVal.int)) 0 l.length

/-- A string leaf column. -/
def colS (l : List (Option String)) : Column := .prim (l.map (Option.map PVal.str)) 0 l.length

/-- Child column 1 of the struct of `Sort.WithStructColumnCombinations`
(values `{0, 1, 9, x, 9, x, x, x}` with `x` null). -/
def comboC1 : Column := colI [some 0, some 1, some 9, none, some 9, none, none, none]

/-- Child column 2 of the same struct (values `{x, x, 9, x, 9, x, 1, 0}`). -/
def comboC2 : Column := colI [none, none, some 9, none, some 9, none, some 1, some 0]

/-- The struct column of `Sort.WithStructColumnCombinations`: rows 2 and 4
are struct-null, rows 3 and 5 have all-null children. -/
def comboS : Column :=
  .strct [true, true, false, true, false, true, true, true] [comboC1, comboC2] 0 8

/-- The single-struct-column table of `Sort.WithStructColumnCombinations`. -/
def comboT : Table := [comboS]

/-- The struct column of `Sort.WithStructColumnCombinationsWithoutNulls`:
same children, no struct validity mask. -/
def combo2S : Column := .strct [] [comboC1, comboC2] 0 8

/-- The single-struct-column table of
`Sort.WithStructColumnCombinationsWithoutNulls`. -/
def combo2T : Table := [combo2S]

/-- A two-row, one-column table with a value and a null
(for the direction/null-placement interaction). -/
def twoRowT : Table := [colI [some 5, none]]

/-- The three-column, five-row all-valid table of
`Sort.MisMatchInColumnOrderSize` / `Sort.MisMatchInNullPrecedenceSize`. -/
def mmT : Table := [colI [some 5, some 4, some 3, some 5, some 8],
  colS [some ("d"), some ("e"), some ("a"), some ("d"), some ("k")],
  colI [some 10, some 40, some 70, some 5, some 2]]

/-- The single-key-column table of `SortByKey.ValueKeysSizeMismatch`
(four rows, against the five-row `mmT` values). -/
def mmKeys : Table := [colI [some 5, some 4, some 3, some 5]]

/-- The one-column decimal table of
`FixedPointTestBothReps.FixedPointSortedOrderGather` (scale 0, values
`{2, 1, 0, 4, 3}`), sorted with default (empty) directive lists. -/
def fpT : Table := [colI [some 2, some 1, some 0, some 4, some 3]]

/-- The two-column table of `Sort.Stable` (column 1 has a null at row 0,
column 2 at row 4; rows 1, 5, 7 tie on both columns). -/
def stableT : Table :=
  [colI [none, some 1, some 1, some 0, some 0, some 1, some 0, some 1],
   colS [some ("2"), some ("a"), some ("b"), some ("x"), none, some ("a"), some ("x"), some ("a")]]

/-- The string child of the struct of `Sort.WithSlicedStructColumn`
(row 7 null). -/
def slNames : Column := colS [some ("bbe"), some ("bbe"), some ("aaa"), some ("abc"), some ("ab"),
  some ("za"), some ("b"), none]

/-- Second struct child of `Sort.WithSlicedStructColumn`. -/
def slC2 : Column := colI [some 1, some 1, some 0, some 0, some 0, some 2, some 1, some 3]

/-- Third struct child of `Sort.WithSlicedStructColumn`. -/
def slC3 : Column := colI [some 7, some 8, some 1, some 1, some 9, some 5, some 7, some 3]

/-- The single-struct-column eight-row table of
`Sort.WithSlicedStructColumn`, split at row 3 in the test. -/
def slT : Table := [Column.strct [] [slNames, slC2, slC3] 0 8]

/-- The zero-sized single-column table of `Sort.ZeroSizedColumns`. -/
def emptyT : Table := [colI []]

/-- The key column of `groupby_mean_test.basic`:
`[1, 2, 3, 1, 2, 2, 1, 3, 3, 2]`, no nulls. -/
def gbBasicKeys : Table :=
  [colI [some 1, some 2, some 3, some 1, some 2, some 2, some 1, some 3, some 3, some 2]]

/-- The all-valid value column `[0, …, 9]` of `groupby_mean_test.basic`. -/
def gbBasicVals : Column :=
  colI [some 0, some 1, some 2, some 3, some 4, some 5, some 6, some 7, some 8, some 9]

/-- The all-null three-row key column of `groupby_mean_test.zero_valid_keys`. -/
def gbAllNullKeys : Table := [colI [none, none, none]]

/-- The key column of `groupby_mean_test.zero_valid_values` (`[1, 1, 1]`). -/
def gbOnesKeys : Table := [colI [some 1, some 1, some 1]]

/-- The all-null value column of `groupby_mean_test.zero_valid_values`. -/
def gbAllNullVals : Column := colI [none, none, none]

/-- The key column of `groupby_mean_test.null_keys_and_values`
(`[1, 2, 3, 1, 2, 2, 1, 3, 3, 2, 4]` with the key at row 7 null). -/
def gbNullKeys : Table := [colI [some 1, some 2, some 3, some 1, some 2, some 2, some 1,
  none, some 3, some 2, some 4]]

/-- The value column of `groupby_mean_test.null_keys_and_values`
(`[0, 1, 2, 3, 4, 5, 6, 7, 8, 9, 4]` with rows 0, 5, 10 null). -/
def gbNullVals : Column := colI [none, some 1, some 2, some 3, some 4, none, some 6,
  some 7, some 8, some 9, none]

end Cudf

namespace Cudf

/-! ### Comparator reflexivity -/

theorem strLtL_refl (l : List Char) : strLtL l l = false := by
  induction l with
  | nil => rfl
  | cons c cs ih => simp [strLtL, chLt, ih]

theorem comparePV_refl (v : PVal) : comparePV v v = .EQUIVALENT := by
  cases v with
  | int n => simp [comparePV]
  | str s => simp [comparePV, strLt, strLtL_refl]

mutual

theorem compareCell_refl (no : NullOrder) (a : Cell) : compareCell no a a = .EQUIVALENT := by
  match a with
  | .pnull => rfl
  | .pval v => simpa [compareCell] using comparePV_refl v
  | .snull => rfl
  | .sval cs => simpa [compareCell] using compareCellList_refl no cs

theorem compareCellList_refl (no : NullOrder) (cs : List Cell) :
    compareCellList no cs cs = .EQUIVALENT := by
  match cs with
  | [] => rfl
  | c :: rest =>
    rw [compareCellList, compareCell_refl, compareCellList_refl no rest]

end

theorem lexLess_refl (cs : List Cell) (ds : List SortDir) (ns : List NullOrder) :
    lexLess cs cs ds ns = false := by
  induction cs generalizing ds ns with
  | nil => rfl
  | cons a as ih => rw [lexLess, compareCell_refl]; exact ih _ _

theorem rowLess_refl (t : Table) (ds : List SortDir) (ns : List NullOrder) (i : Nat) :
    rowLess t ds ns i i = false := lexLess_refl _ _ _

/-! ### Stability of the insertion sort -/

theorem insStable_filter_neg (lt : α → α → Bool) (P : α → Bool) (x : α)
    (hx : P x = false) (l : List α) :
    (insStable lt x l).filter P = l.filter P := by
  induction l with
  | nil => simp [insStable, hx]
  | cons y ys ih =>
    by_cases h : lt y x = true
    · simp only [insStable, h, if_pos rfl, List.filter_cons]
      cases hy : P y <;> simp [hy, ih]
    · simp only [insStable, Bool.not_eq_true] at h
      simp [insStable, h, List.filter_cons, hx]

theorem insStable_filter_pos (lt : α → α → Bool) (P : α → Bool) (x : α)
    (hx : P x = true) (hmin : ∀ y, P y = true → lt y x = false) (l : List α) :
    (insStable lt x l).filter P = x :: l.filter P := by
  induction l with
  | nil => simp [insStable, hx]
  | cons y ys ih =>
    by_cases h : lt y x = true
    · have hy : P y = false := by
        cases hyv : P y with
        | false => rfl
        | true => rw [hmin y hyv] at h; exact absurd h (by simp)
      simp [insStable, h, List.filter_cons, hy, ih]
    · simp only [Bool.not_eq_true] at h
      simp [insStable, h, List.filter_cons, hx]

/-- Filtering by a predicate all of whose matches are mutually tied under
the comparator commutes with the stable sort: tied elements keep their
original relative order. -/
theorem isort_filter (lt : α → α → Bool) (P : α → Bool)
    (hcmp : ∀ a b, P a = true → P b = true → lt a b = false) (l : List α) :
    (isort lt l).filter P = l.filter P := by
  induction l with
  | nil => rfl
  | cons x xs ih =>
    cases hx : P x with
    | false => rw [isort, insStable_filter_neg lt P x hx, ih, List.filter_cons, hx]; simp
    | true =>
      rw [isort, insStable_filter_pos lt P x hx (fun y hy => hcmp y x hy hx), ih,
        List.filter_cons, hx]
      simp

theorem insStable_perm (lt : α → α → Bool) (x : α) (l : List α) :
    (insStable lt x l).Perm (x :: l) := by
  induction l with
  | nil => exact List.Perm.refl _
  | cons y ys ih =>
    by_cases h : lt y x = true
    · simp only [insStable, h, if_pos rfl]
      exact (ih.cons y).trans (List.Perm.swap x y ys)
    · simp only [Bool.not_eq_true] at h
      rw [insStable, if_neg (by simp [h])]

theorem isort_perm (lt : α → α → Bool) (l : List α) : (isort lt l).Perm l := by
  induction l with
  | nil => exact List.Perm.refl _
  | cons x xs ih => exact (insStable_perm lt x (isort lt xs)).trans (ih.cons x)

theorem isort_mem (lt : α → α → Bool) (l : List α) (a : α) :
    a ∈ isort lt l ↔ a ∈ l := (isort_perm lt l).mem_iff

/-! ### Relative positions inside `range` and sorted output -/

theorem filter_range_none (i j n : Nat) (hn : n ≤ i) (hj : n ≤ j) :
    (List.range n).filter (fun a => a == i || a == j) = [] := by
  apply List.filter_eq_nil_iff.mpr
  intro a ha
  have : a < n := List.mem_range.mp ha
  simp only [Bool.or_eq_true, beq_iff_eq, not_or]
  omega

theorem filter_range_one (i j : Nat) (_hij : i < j) :
    ∀ n, i < n → n ≤ j → (List.range n).filter (fun a => a == i || a == j) = [i] := by
  intro n
  induction n with
  | zero => omega
  | succ m ih =>
    intro hi hj
    rw [List.range_succ, List.filter_append]
    by_cases him : i < m
    · rw [ih him (by omega)]
      have h1 : (m == i) = false := by simp; omega
      have h2 : (m == j) = false := by simp; omega
      simp [h1, h2]
    · have him' : i = m := by omega
      rw [filter_range_none i j m (by omega) (by omega)]
      have h1 : (m == i) = true := by simp; omega
      simp [h1]
      omega

theorem filter_range_pair (i j : Nat) (hij : i < j) :
    ∀ n, j < n → (List.range n).filter (fun a => a == i || a == j) = [i, j] := by
  intro n
  induction n with
  | zero => omega
  | succ m ih =>
    intro hj
    rw [List.range_succ, List.filter_append]
    by_cases hjm : j < m
    · rw [ih hjm]
      have h1 : (m == i) = false := by simp; omega
      have h2 : (m == j) = false := by simp; omega
      simp [h1, h2]
    · have hjm' : j = m := by omega
      rw [filter_range_one i j hij m (by omega) (by omega)]
      have h2 : (m == j) = true := by simp; omega
      have h1 : (m == i) = false := by simp; omega
      simp [h1, h2]
      omega

/-- If filtering a list keeps exactly `[i, j]`, then `i` occurs before `j`. -/
theorem filter_pair_indexOf (P : Nat → Bool) :
    ∀ (l : List Nat) (i j : Nat), l.filter P = [i, j] → i ≠ j →
      l.indexOf i < l.indexOf j := by
  intro l
  induction l with
  | nil => intro i j h; simp at h
  | cons x xs ih =>
    intro i j h hij
    have hi : i ∈ List.filter P (x :: xs) := by rw [h]; simp
    have hj : j ∈ List.filter P (x :: xs) := by rw [h]; simp
    have hPi : P i = true := (List.mem_filter.mp hi).2
    have hPj : P j = true := (List.mem_filter.mp hj).2
    rw [List.filter_cons] at h
    by_cases hPx : P x = true
    · rw [if_pos hPx] at h
      have hx : x = i := List.head_eq_of_cons_eq h
      have hxj : (x == j) = false := by simp [hx]; exact hij
      have hxi : (x == i) = true := by simp [hx]
      rw [List.indexOf_cons, List.indexOf_cons, hxi, hxj]
      simp
    · rw [if_neg hPx] at h
      have hxi : (x == i) = false := by
        simp only [beq_eq_false_iff_ne, ne_eq]
        intro he; rw [he] at hPx; exact hPx hPi
      have hxj : (x == j) = false := by
        simp only [beq_eq_false_iff_ne, ne_eq]
        intro he; rw [he] at hPx; exact hPx hPj
      rw [List.indexOf_cons, List.indexOf_cons, hxi, hxj]
      simp only [cond_false]
      have := ih i j h hij
      omega


/-! ### Cells of sliced and gathered views -/

theorem cell_ge (c : Column) (r : Nat) (h : c.size ≤ r) : c.cell r = c.nullCell := by
  cases c with
  | prim vals off sz => rw [Column.cell, if_neg (by simp [Column.size] at h; omega)]; rfl
  | strct valid children off sz =>
    rw [Column.cell, if_neg (by simp [Column.size] at h; omega)]; rfl

theorem sliceCol_size (c : Column) (s len : Nat) : (sliceCol c s len).size = len := by
  cases c <;> rfl

theorem gatherCol_size (c : Column) (idx : List Nat) :
    (gatherCol c idx).size = idx.length := by
  cases c with
  | prim vals off sz => simp [gatherCol, Column.size]
  | strct valid children off sz => simp [gatherCol, Column.size]

theorem gatherCol_nullCell (c : Column) (idx : List Nat) :
    (gatherCol c idx).nullCell = c.nullCell := by
  cases c <;> rfl

theorem sliceCol_wf (c : Column) (s len : Nat) (hwf : ColWF c)
    (hsz : s + len ≤ c.size) : ColWF (sliceCol c s len) := by
  cases hwf with
  | prim vals off sz => exact ColWF.prim _ _ _
  | strct valid children off sz h hw =>
    simp only [Column.size] at hsz
    refine ColWF.strct _ _ _ _ (fun ch hch => ?_) hw
    have := h ch hch
    omega

theorem sliceCol_cell_lt (c : Column) (s len r : Nat) (hr : r < len)
    (hsz : s + len ≤ c.size) : (sliceCol c s len).cell r = c.cell (s + r) := by
  cases c with
  | prim vals off sz =>
    simp only [Column.size] at hsz
    have h2 : s + r < sz := by omega
    simp only [sliceCol, Column.cell, if_pos hr, if_pos h2, Nat.add_assoc]
  | strct valid children off sz =>
    simp only [Column.size] at hsz
    have h2 : s + r < sz := by omega
    simp only [sliceCol, Column.cell, if_pos hr, if_pos h2, Nat.add_assoc]

mutual

theorem gatherCol_cell (c : Column) (hwf : ColWF c) (idx : List Nat)
    (hidx : ∀ x ∈ idx, x < c.size) (r : Nat) (hr : r < idx.length) :
    (gatherCol c idx).cell r = c.cell (idx.getD r 0) := by
  have hmem : idx.getD r 0 ∈ idx := by
    rw [List.getD_eq_getElem _ _ hr]; exact List.getElem_mem hr
  match c with
  | .prim vals off sz =>
    have hlt : idx.getD r 0 < sz := hidx _ hmem
    rw [gatherCol, Column.cell, if_pos (by simpa using hr), Column.cell, if_pos hlt,
      Nat.zero_add, List.getD_eq_getElem _ _ (by simpa using hr), List.getElem_map,
      List.getD_eq_getElem _ _ hr]
  | .strct valid children off sz =>
    have hlt : idx.getD r 0 < sz := hidx _ hmem
    cases hwf with
    | strct _ _ _ _ hs hw =>
      have hgl : cellList (gatherColList children (idx.map (fun q => off + q))) r
          = cellList children ((idx.map (fun q => off + q)).getD r 0) := by
        refine gatherColList_cell children hw _ ?_ r (by simpa using hr)
        intro ch hch x hx
        obtain ⟨y, hy, rfl⟩ := List.mem_map.mp hx
        have h1 := hidx _ hy
        have h2 := hs ch hch
        simp only [Column.size] at h1
        omega
      have hmap : (idx.map (fun q => off + q)).getD r 0 = off + idx.getD r 0 := by
        rw [List.getD_eq_getElem _ _ (by simpa using hr), List.getElem_map,
          List.getD_eq_getElem _ _ hr]
      have hvf : (idx.map (fun q => valid.getD (off + q) true)).getD r true
          = valid.getD (off + idx.getD r 0) true := by
        rw [List.getD_eq_getElem _ _ (by simpa using hr), List.getElem_map,
          List.getD_eq_getElem _ _ hr]
      rw [gatherCol, Column.cell, if_pos (show r < idx.length from hr), Column.cell,
        if_pos hlt, Nat.zero_add, hgl, hmap, hvf]

theorem gatherColList_cell (cs : List Column) (hwf : ∀ ch ∈ cs, ColWF ch)
    (idx : List Nat) (hidx : ∀ ch ∈ cs, ∀ x ∈ idx, x < ch.size) (r : Nat)
    (hr : r < idx.length) :
    cellList (gatherColList cs idx) r = cellList cs (idx.getD r 0) := by
  match cs with
  | [] => rfl
  | c :: rest =>
    rw [gatherColList, cellList, cellList,
      gatherCol_cell c (hwf c (by simp)) idx (hidx c (by simp)) r hr,
      gatherColList_cell rest (fun ch hch => hwf ch (by simp [hch])) idx
        (fun ch hch => hidx ch (by simp [hch])) r hr]

end

mutual

theorem gatherCol_wf (c : Column) (hwf : ColWF c) (idx : List Nat) :
    ColWF (gatherCol c idx) := by
  match c with
  | .prim vals off sz => exact ColWF.prim _ _ _
  | .strct valid children off sz =>
    cases hwf with
    | strct _ _ _ _ hs hw =>
      rw [gatherCol]
      refine ColWF.strct _ _ _ _ (fun ch hch => ?_) (fun ch hch => ?_)
      · have := (gatherColList_wf children hw _ ch hch).2
        simp only [this, List.length_map, Nat.zero_add, Nat.le_refl]
      · exact (gatherColList_wf children hw _ ch hch).1

theorem gatherColList_wf (cs : List Column) (hwf : ∀ ch ∈ cs, ColWF ch)
    (idx : List Nat) :
    ∀ ch ∈ gatherColList cs idx, ColWF ch ∧ ch.size = idx.length := by
  match cs with
  | [] => intro ch hch; simp [gatherColList] at hch
  | c :: rest =>
    intro ch hch
    rw [gatherColList] at hch
    rcases List.mem_cons.mp hch with h | h
    · subst h
      exact ⟨gatherCol_wf c (hwf c (by simp)) idx, gatherCol_size c idx⟩
    · exact gatherColList_wf rest (fun x hx => hwf x (by simp [hx])) idx ch h

end

/-! ### Sorting a sliced view versus sorting its materialisation -/

theorem slice_gather_cell_eq (c : Column) (hwf : ColWF c) (s len : Nat)
    (hsz : s + len ≤ c.size) (r : Nat) :
    (gatherCol (sliceCol c s len) (List.range len)).cell r = (sliceCol c s len).cell r := by
  by_cases hr : r < len
  · have h1 := gatherCol_cell (sliceCol c s len) (sliceCol_wf c s len hwf hsz)
      (List.range len) (fun x hx => by rw [sliceCol_size]; exact List.mem_range.mp hx)
      r (by simpa using hr)
    rw [h1]
    congr 1
    rw [List.getD_eq_getElem _ _ (by simpa using hr), List.getElem_range]
  · push_neg at hr
    rw [cell_ge _ _ (by rw [gatherCol_size, List.length_range]; omega),
      cell_ge _ _ (by rw [sliceCol_size]; omega), gatherCol_nullCell]

theorem slice_materialize_row (t : Table) (s len : Nat)
    (hwf : ∀ c ∈ t, ColWF c ∧ s + len ≤ c.size) (r : Nat) :
    Table.row (gatherTable (sliceTable t s len) (List.range len)) r
      = Table.row (sliceTable t s len) r := by
  simp only [Table.row, gatherTable, sliceTable, List.map_map]
  apply List.map_congr_left
  intro c hc
  exact slice_gather_cell_eq c (hwf c hc).1 s len (hwf c hc).2 r

theorem slice_materialize_nrows (t : Table) (s len : Nat) :
    Table.nrows (gatherTable (sliceTable t s len) (List.range len))
      = Table.nrows (sliceTable t s len) := by
  cases t with
  | nil => rfl
  | cons c rest =>
    show (gatherCol (sliceCol c s len) (List.range len)).size = (sliceCol c s len).size
    rw [gatherCol_size, sliceCol_size, List.length_range]

theorem slice_materialize_sortedOrderU (t : Table) (s len : Nat)
    (hwf : ∀ c ∈ t, ColWF c ∧ s + len ≤ c.size) (ds : List SortDir) (ns : List NullOrder) :
    sortedOrderU (gatherTable (sliceTable t s len) (List.range len)) ds ns
      = sortedOrderU (sliceTable t s len) ds ns := by
  unfold sortedOrderU
  rw [slice_materialize_nrows]
  congr 1
  funext i j
  unfold rowLess
  rw [slice_materialize_row t s len hwf i, slice_materialize_row t s len hwf j]

theorem gather_slice_gather_cell (c : Column) (s len : Nat) (hwf : ColWF c)
    (hsz : s + len ≤ c.size) (p : List Nat) (hp : ∀ x ∈ p, x < len) (r : Nat) :
    (gatherCol (sliceCol c s len) p).cell r
      = (gatherCol (gatherCol (sliceCol c s len) (List.range len)) p).cell r := by
  by_cases hr : r < p.length
  · rw [gatherCol_cell (sliceCol c s len) (sliceCol_wf c s len hwf hsz) p
      (fun x hx => by rw [sliceCol_size]; exact hp x hx) r hr]
    rw [gatherCol_cell (gatherCol (sliceCol c s len) (List.range len))
      (gatherCol_wf _ (sliceCol_wf c s len hwf hsz) _) p
      (fun x hx => by rw [gatherCol_size, List.length_range]; exact hp x hx) r hr]
    rw [slice_gather_cell_eq c hwf s len hsz]
  · push_neg at hr
    rw [cell_ge _ _ (by rw [gatherCol_size]; omega),
      cell_ge _ _ (by rw [gatherCol_size]; omega),
      gatherCol_nullCell, gatherCol_nullCell, gatherCol_nullCell]

theorem nrows_slice_le (t : Table) (s len : Nat) :
    Table.nrows (sliceTable t s len) ≤ len := by
  cases t with
  | nil => exact Nat.zero_le _
  | cons c rest => show (sliceCol c s len).size ≤ len; rw [sliceCol_size]

/-! ### Group extents cover every included sorted position -/

theorem sorted_last_le (p : Nat) :
    ∀ (l : List Nat), l.Pairwise (· < ·) → (∃ a ∈ l, a ≤ p) →
      ((l.filter (fun q => decide (q ≤ p))).length - 1 < l.length
       ∧ l.getD ((l.filter (fun q => decide (q ≤ p))).length - 1) 0 ≤ p
       ∧ ((l.filter (fun q => decide (q ≤ p))).length < l.length →
           p < l.getD (l.filter (fun q => decide (q ≤ p))).length 0)) := by
  intro l
  induction l with
  | nil => intro _ hex; simp at hex
  | cons x xs ih =>
    intro hs hex
    have hxlt : ∀ y ∈ xs, x < y := fun y hy => (List.pairwise_cons.mp hs).1 y hy
    have hxs : xs.Pairwise (· < ·) := (List.pairwise_cons.mp hs).2
    have hxp : x ≤ p := by
      obtain ⟨a, ha, hap⟩ := hex
      rcases List.mem_cons.mp ha with rfl | ha2
      · exact hap
      · exact Nat.le_of_lt (Nat.lt_of_lt_of_le (hxlt a ha2) hap)
    rw [List.filter_cons, if_pos (by simpa using hxp)]
    by_cases hex2 : ∃ a ∈ xs, a ≤ p
    · obtain ⟨hlt, hle, hnext⟩ := ih hxs hex2
      have hpos : 0 < (xs.filter (fun q => decide (q ≤ p))).length := by
        obtain ⟨a, ha, hap⟩ := hex2
        exact List.length_pos.mpr (List.ne_nil_of_mem
          (List.mem_filter.mpr ⟨ha, by simpa using hap⟩))
      set F := (xs.filter (fun q => decide (q ≤ p))).length with hF
      refine ⟨?_, ?_, ?_⟩
      · simp only [List.length_cons]
        omega
      · have h1 : F + 1 - 1 = (F - 1) + 1 := by omega
        rw [List.length_cons, h1, List.getD_cons_succ]
        exact hle
      · intro hlen
        simp only [List.length_cons] at hlen
        rw [List.length_cons, List.getD_cons_succ]
        exact hnext (by omega)
    · push_neg at hex2
      have hnil : xs.filter (fun q => decide (q ≤ p)) = [] := by
        apply List.filter_eq_nil_iff.mpr
        intro a ha
        simpa using hex2 a ha
      rw [hnil]
      refine ⟨by simp, by simpa using hxp, ?_⟩
      intro hlen
      simp only [List.length_nil, List.length_cons] at hlen ⊢
      rw [List.getD_cons_succ]
      cases xs with
      | nil => simp at hlen
      | cons y ys =>
        rw [List.getD_cons_zero]
        have := hex2 y (by simp)
        omega

theorem gbIds_exists_le (keys : Table) (inc : Bool) :
    ∀ p, p < keys.nrows → gbValid keys inc (gbOrder keys) p = true →
      ∃ q ∈ gbIds keys inc, q ≤ p := by
  intro p
  induction p using Nat.strong_induction_on with
  | _ p ih =>
    intro hp hv
    by_cases hpred : gbPred keys inc p = true
    · exact ⟨p, List.mem_filter.mpr ⟨List.mem_range.mpr hp, hpred⟩, Nat.le_refl p⟩
    · have hsplit : p ≠ 0 ∧ gbValid keys inc (gbOrder keys) (p - 1) = true := by
        rw [gbPred, hv] at hpred
        simp only [Bool.true_and, Bool.or_eq_true, Bool.not_eq_true', beq_iff_eq,
          Bool.not_eq_true] at hpred
        push_neg at hpred
        exact ⟨hpred.1.1, by simpa using hpred.1.2⟩
      obtain ⟨q, hq, hqle⟩ := ih (p - 1) (by omega) (by omega) hsplit.2
      exact ⟨q, hq, by omega⟩

theorem getD_tail (l : List Nat) (i : Nat) (d : Nat) :
    l.tail.getD i d = l.getD (i + 1) d := by
  cases l with
  | nil => rfl
  | cons x xs => rw [List.tail_cons, List.getD_cons_succ]

/-- Every included sorted position falls inside a group extent: between
some group start and the next group start (or the end of the table). -/
theorem gb_extent_mem (keys : Table) (inc : Bool) (p : Nat) (hp : p < keys.nrows)
    (hv : gbValid keys inc (gbOrder keys) p = true) :
    ∃ gi, gi < (gbIds keys inc).length ∧
      (gbIds keys inc).getD gi 0 ≤ p ∧
      p < ((gbIds keys inc).tail ++ [keys.nrows]).getD gi 0 := by
  have hs : (gbIds keys inc).Pairwise (· < ·) :=
    List.Pairwise.filter _ (List.pairwise_lt_range _)
  have hex := gbIds_exists_le keys inc p hp hv
  obtain ⟨hlt, hle, hnext⟩ := sorted_last_le p (gbIds keys inc) hs hex
  have hpos : 0 < ((gbIds keys inc).filter (fun q => decide (q ≤ p))).length := by
    obtain ⟨a, ha, hap⟩ := hex
    exact List.length_pos.mpr (List.ne_nil_of_mem
      (List.mem_filter.mpr ⟨ha, by simpa using hap⟩))
  set F := ((gbIds keys inc).filter (fun q => decide (q ≤ p))).length with hF
  set L := (gbIds keys inc).length with hL
  refine ⟨F - 1, hlt, hle, ?_⟩
  by_cases hFL : F < L
  · have h1 : ((gbIds keys inc).tail ++ [keys.nrows]).getD (F - 1) 0
        = (gbIds keys inc).getD F 0 := by
      rw [List.getD_append _ _ _ _ (by rw [List.length_tail]; omega), getD_tail]
      congr 1
      omega
    rw [h1]
    exact hnext hFL
  · have hFeq : F - 1 = (gbIds keys inc).tail.length := by rw [List.length_tail]; omega
    rw [List.getD_append_right _ _ _ _ (by omega)]
    rw [hFeq]
    simp only [Nat.sub_self, List.getD_cons_zero]
    exact hp

theorem zip_getD (l1 l2 : List Nat) (i : Nat) (h1 : i < l1.length) (h2 : i < l2.length) :
    (l1.zip l2).getD i (0, 0) = (l1.getD i 0, l2.getD i 0) := by
  rw [List.getD_eq_getElem _ _ (by rw [List.length_zip]; omega), List.getElem_zip,
    List.getD_eq_getElem _ _ h1, List.getD_eq_getElem _ _ h2]

/-! ### The public group-by operations leave the cached state unchanged -/

theorem runOp_snd (g : Groupby) (op : GbOp) : (g.runOp op).2 = g := by
  cases op <;> rfl

theorem runOps_pure (g : Groupby) (ops : List GbOp) :
    g.runOps ops = (ops.map (fun op => (g.runOp op).1), g) := by
  induction ops generalizing g with
  | nil => rfl
  | cons op ops ih =>
    rw [Groupby.runOps]
    rw [runOp_snd, ih]
    simp


/-! ### Claims -/

/-- Claim C1, counterexample.  The claim asserts that null placement is
independent of sort direction: `AFTER` makes the null row compare greater,
this is not negated by `DESCENDING`, and flipping the direction leaves the
null position in `sorted_order` output unchanged.  On the struct column of
`Sort.WithStructColumnCombinations`, with placement fixed to `AFTER`, the
test expectations place the struct-null rows 2 and 4 last under `ASCENDING`
but first under `DESCENDING`: row 2 moves from output position 6 to output
position 0, and under `DESCENDING` with `AFTER` the null row 2 compares
less than the non-null row 0 — the direction does negate the null
decision. -/
theorem C1_counterexample :
    sortedOrderU comboT [.ASCENDING] [.AFTER] = [0, 1, 7, 6, 3, 5, 2, 4] ∧
    sortedOrderU comboT [.DESCENDING] [.AFTER] = [2, 4, 3, 5, 6, 7, 1, 0] ∧
    rowLess comboT [.DESCENDING] [.AFTER] 2 0 = true ∧
    ¬((sortedOrderU comboT [.ASCENDING] [.AFTER]).indexOf 2
        = (sortedOrderU comboT [.DESCENDING] [.AFTER]).indexOf 2) :=
  ⟨by decide, by decide, by decide, by decide⟩

/-- Claim C1, amended.  When exactly one of two rows is null at the sort
column, the null-placement policy decides the weak ordering (`BEFORE` makes
the null row less, `AFTER` greater), and this decision IS negated when the
column's direction is `DESCENDING`, exactly like a value comparison: the
null row is placed "less" iff placement and direction agree
(`BEFORE` with `ASCENDING`, or `AFTER` with `DESCENDING`).  Consequently
flipping `ASCENDING` to `DESCENDING` also flips the null rows' first/last
position in the `sorted_order` output, demonstrated on a two-row column
with placement fixed to `AFTER`. -/
theorem C1_amended_theorem (c : Column) (d : SortDir) (no : NullOrder) (i j : Nat)
    (hni : (c.cell i).isNullCell = true) (hnj : (c.cell j).isNullCell = false)
    (hk : (c.cell i).isStructCell = (c.cell j).isStructCell) :
    (rowLess [c] [d] [no] i j = ((no == .BEFORE) == (d == .ASCENDING)) ∧
     rowLess [c] [d] [no] j i = ((no == .AFTER) == (d == .ASCENDING))) ∧
    sortedOrderU twoRowT [.ASCENDING] [.AFTER] = [0, 1] ∧
    sortedOrderU twoRowT [.DESCENDING] [.AFTER] = [1, 0] := by
  refine ⟨?_, by decide, by decide⟩
  cases hci : c.cell i with
  | pval v => rw [hci] at hni; simp [Cell.isNullCell] at hni
  | sval cs => rw [hci] at hni; simp [Cell.isNullCell] at hni
  | pnull =>
    cases hcj : c.cell j with
    | pnull => rw [hcj] at hnj; simp [Cell.isNullCell] at hnj
    | snull => rw [hcj] at hnj; simp [Cell.isNullCell] at hnj
    | sval cs => rw [hci, hcj] at hk; simp [Cell.isStructCell] at hk
    | pval v =>
      constructor <;>
        · simp only [rowLess, Table.row, List.map_cons, List.map_nil, hci, hcj]
          cases no <;> cases d <;> rfl
  | snull =>
    cases hcj : c.cell j with
    | pnull => rw [hcj] at hnj; simp [Cell.isNullCell] at hnj
    | snull => rw [hcj] at hnj; simp [Cell.isNullCell] at hnj
    | pval v => rw [hci, hcj] at hk; simp [Cell.isStructCell] at hk
    | sval cs =>
      constructor <;>
        · simp only [rowLess, Table.row, List.map_cons, List.map_nil, hci, hcj]
          cases no <;> cases d <;> rfl

/-- Claim C1, witness: the amended theorem applied to the struct-null row 2
against the non-null row 0 of the `WithStructColumnCombinations` struct
column, under `DESCENDING` with `AFTER` placement. -/
theorem C1_witness :
    (rowLess [comboS] [.DESCENDING] [.AFTER] 2 0
        = ((NullOrder.AFTER == .BEFORE) == (SortDir.DESCENDING == .ASCENDING)) ∧
     rowLess [comboS] [.DESCENDING] [.AFTER] 0 2
        = ((NullOrder.AFTER == .AFTER) == (SortDir.DESCENDING == .ASCENDING))) ∧
    sortedOrderU twoRowT [.ASCENDING] [.AFTER] = [0, 1] ∧
    sortedOrderU twoRowT [.DESCENDING] [.AFTER] = [1, 0] :=
  C1_amended_theorem comboS .DESCENDING .AFTER 2 0 (by decide) (by decide) (by decide)

/-- Claim C2, counterexample.  The claim asserts that nulls in nested
(non-top-level) child columns are always compared with `BEFORE` placement
regardless of the requested top-level policy; then the all-null-children
row 3 of `WithStructColumnCombinationsWithoutNulls` would compare less than
the fully-valid row 2 under any policy.  The test expectation for
ascending/nulls-last (requested `AFTER`) instead sorts row 3 after row 2:
the child-null comparison follows the requested top-level policy. -/
theorem C2_counterexample :
    sortedOrderU combo2T [.ASCENDING] [.AFTER] = [0, 1, 2, 4, 7, 6, 3, 5] ∧
    rowLess combo2T [.ASCENDING] [.BEFORE] 3 2 = true ∧
    rowLess combo2T [.ASCENDING] [.AFTER] 3 2 = false ∧
    ¬(rowLess combo2T [.ASCENDING] [.AFTER] 3 2
        = rowLess combo2T [.ASCENDING] [.BEFORE] 3 2) :=
  ⟨by decide, by decide, by decide, by decide⟩

/-- Claim C2, amended.  Leaf (non-struct) children of a struct column
inherit the null-placement policy requested for the top-level column, while
a nested struct child's own validity is compared with `BEFORE` placement;
and, as the claim's concrete scenario states, struct-null rows (2 and 4)
sort before all-null-children rows (3 and 5) under nulls-first in either
direction, reproducing the `WithStructColumnCombinations` expectations for
descending/nulls-first and ascending/nulls-first. -/
theorem C2_amended_theorem :
    (∀ (no : NullOrder) (v : PVal),
        compareCell no (.sval [.pnull]) (.sval [.pval v]) = nullRes true no) ∧
    (∀ (no : NullOrder) (cs : List Cell),
        compareCell no (.sval [.snull]) (.sval [.sval cs]) = nullRes true .BEFORE) ∧
    sortedOrderU comboT [.DESCENDING] [.AFTER] = [2, 4, 3, 5, 6, 7, 1, 0] ∧
    sortedOrderU comboT [.ASCENDING] [.BEFORE] = [2, 4, 3, 5, 7, 6, 0, 1] ∧
    (sortedOrderU comboT [.DESCENDING] [.AFTER]).indexOf 4
      < (sortedOrderU comboT [.DESCENDING] [.AFTER]).indexOf 3 ∧
    (sortedOrderU comboT [.ASCENDING] [.BEFORE]).indexOf 4
      < (sortedOrderU comboT [.ASCENDING] [.BEFORE]).indexOf 3 := by
  refine ⟨?_, ?_, by decide, by decide, by decide, by decide⟩
  · intro no v; cases no <;> rfl
  · intro no cs; rfl

/-- Claim C3, counterexample.  The claim asserts that every
direction-directive list whose length differs from the column count is a
usage error; but an empty direction list is accepted as "defaults for every
column": the one-column decimal table of `FixedPointSortedOrderGather` is
sorted successfully with both directive lists empty (length 0 ≠ 1 column),
returning a permutation rather than an error. -/
theorem C3_counterexample :
    ([] : List SortDir).length ≠ Table.ncols fpT ∧
    sorted_order fpT [] [] = .ok [2, 1, 0, 4, 3] ∧
    sort fpT [] [] = .ok (gatherTable fpT [2, 1, 0, 4, 3]) :=
  ⟨by decide, rfl, rfl⟩

/-- Claim C3, amended.  A NON-EMPTY direction list whose length differs
from the column count, or a non-empty null-placement list whose length
differs from the column count, is a usage error in all four entry points
(an empty list means "defaults"); and a values/keys row-count mismatch is a
usage error in `sort_by_key`.  Each failure returns an error value and no
partial permutation or table. -/
theorem C3_amended_theorem (t vvals vkeys : Table) (ds : List SortDir)
    (ns : List NullOrder)
    (h : (ds ≠ [] ∧ ds.length ≠ t.ncols) ∨ (ns ≠ [] ∧ ns.length ≠ t.ncols)) :
    (∃ e, sorted_order t ds ns = .error e) ∧
    (∃ e, stable_sorted_order t ds ns = .error e) ∧
    (∃ e, sort t ds ns = .error e) ∧
    (∃ e, sort_by_key vvals t ds ns = .error e) ∧
    (vvals.nrows ≠ vkeys.nrows → ∃ e, sort_by_key vvals vkeys ds ns = .error e) := by
  have hok : directivesOk t ds ns = false := by
    rcases h with ⟨hne, hlen⟩ | ⟨hne, hlen⟩
    · have h1 : ds.isEmpty = false := by simpa using hne
      have h2 : (ds.length == t.ncols) = false := by simpa using hlen
      simp [directivesOk, h1, h2]
    · have h1 : ns.isEmpty = false := by simpa using hne
      have h2 : (ns.length == t.ncols) = false := by simpa using hlen
      simp [directivesOk, h1, h2]
  refine ⟨⟨_, by rw [sorted_order, if_neg (by simp [hok])]⟩,
    ⟨_, by rw [stable_sorted_order, if_neg (by simp [hok])]⟩,
    ⟨_, by rw [sort, sorted_order, if_neg (by simp [hok])]; rfl⟩, ?_, ?_⟩
  · by_cases hrows : vvals.nrows == t.nrows
    · exact ⟨_, by rw [sort_by_key, if_pos hrows, sorted_order, if_neg (by simp [hok])]; rfl⟩
    · exact ⟨_, by rw [sort_by_key, if_neg (by simpa using hrows)]⟩
  · intro hne
    exact ⟨_, by rw [sort_by_key, if_neg (by simpa using hne)]⟩

/-- Claim C3, witness: the amended theorem applied to the three-column
table of `MisMatchInColumnOrderSize` with a two-entry direction list, and
to the five-row values against four-row keys of `ValueKeysSizeMismatch`. -/
theorem C3_witness :
    (∃ e, sorted_order mmT [.ASCENDING, .DESCENDING] [] = .error e) ∧
    (∃ e, stable_sorted_order mmT [.ASCENDING, .DESCENDING] [] = .error e) ∧
    (∃ e, sort mmT [.ASCENDING, .DESCENDING] [] = .error e) ∧
    (∃ e, sort_by_key mmT mmT [.ASCENDING, .DESCENDING] [] = .error e) ∧
    (∃ e, sort_by_key mmT mmKeys [.ASCENDING, .DESCENDING] [] = .error e) := by
  have h := C3_amended_theorem mmT mmT mmKeys [.ASCENDING, .DESCENDING] []
    (Or.inl ⟨by decide, by decide⟩)
  exact ⟨h.1, h.2.1, h.2.2.1, h.2.2.2.1, h.2.2.2.2 (by decide)⟩

/-- Claim C4: stability.  For every table and directive lists, and every
pair of row indices `i < j` that compare equal under the lexicographic
comparator (neither is strictly less than the other), `stable_sorted_order`
succeeds (when the directives validate) with a permutation in which `i`
appears before `j`: equal rows retain their original relative order. -/
theorem C4_theorem (t : Table) (ds : List SortDir) (ns : List NullOrder) (i j : Nat)
    (hij : i < j) (hj : j < t.nrows)
    (h1 : rowLess t ds ns i j = false) (h2 : rowLess t ds ns j i = false)
    (hok : directivesOk t ds ns = true) :
    ∃ p, stable_sorted_order t ds ns = .ok p ∧ p.indexOf i < p.indexOf j := by
  refine ⟨sortedOrderU t ds ns, by simp [stable_sorted_order, hok], ?_⟩
  have hcmp : ∀ a b, (a == i || a == j) = true → (b == i || b == j) = true →
      rowLess t ds ns a b = false := by
    intro a b ha hb
    simp only [Bool.or_eq_true, beq_iff_eq] at ha hb
    rcases ha with ha | ha <;> rcases hb with hb | hb <;> subst ha <;> subst hb
    · exact rowLess_refl t ds ns _
    · exact h1
    · exact h2
    · exact rowLess_refl t ds ns _
  have hf := isort_filter (rowLess t ds ns) (fun a => a == i || a == j) hcmp
    (List.range t.nrows)
  rw [filter_range_pair i j hij _ hj] at hf
  exact filter_pair_indexOf _ _ i j hf (Nat.ne_of_lt hij)

/-- Claim C4, witness: rows 1 and 5 of the `Sort.Stable` fixture carry the
same key `(1, "a")`; the stable order keeps row 1 before row 5. -/
theorem C4_witness :
    ∃ p, stable_sorted_order stableT [.ASCENDING, .ASCENDING] [.AFTER, .BEFORE] = .ok p
      ∧ p.indexOf 1 < p.indexOf 5 :=
  C4_theorem stableT [.ASCENDING, .ASCENDING] [.AFTER, .BEFORE] 1 5
    (by decide) (by decide) (by decide) (by decide) (by decide)

/-- Claim C5: the table-returning sorts are definitionally the gather of
their input by the computed permutation: `sort t` equals
`sorted_order t` mapped through `gather t`, and, whenever the row counts
agree, `sort_by_key v t` equals `sorted_order t` mapped through
`gather v`. -/
theorem C5_theorem (t v : Table) (ds : List SortDir) (ns : List NullOrder) :
    sort t ds ns = (sorted_order t ds ns).map (fun p => gatherTable t p) ∧
    (v.nrows = t.nrows →
      sort_by_key v t ds ns = (sorted_order t ds ns).map (fun p => gatherTable v p)) := by
  refine ⟨rfl, fun h => ?_⟩
  rw [sort_by_key, if_pos (by simp [h])]

/-- Claim C5, witness: `sort_by_key` of the `mmT` fixture against itself
gathers by its own sorted order. -/
theorem C5_witness :
    sort_by_key mmT mmT [] [] = (sorted_order mmT [] []).map (fun p => gatherTable mmT p) :=
  (C5_theorem mmT mmT [] []).2 rfl

/-- Claim C6: empty and degenerate inputs are valid.  A zero-row table with
valid directives yields the empty permutation from `sorted_order` and
zero-row tables from `sort` and `sort_by_key` (no error); and the engine
built over the all-null key column of `zero_valid_keys` with
`include_nulls = false` reports zero groups and a zero-row `unique_keys`
table. -/
theorem C6_theorem (t : Table) (ds : List SortDir) (ns : List NullOrder)
    (h0 : t.nrows = 0) (hok : directivesOk t ds ns = true) :
    sorted_order t ds ns = .ok [] ∧
    sort t ds ns = .ok (gatherTable t []) ∧
    (gatherTable t []).nrows = 0 ∧
    sort_by_key t t ds ns = .ok (gatherTable t []) ∧
    (Groupby.build gbAllNullKeys false).num_groups = 0 ∧
    (Groupby.build gbAllNullKeys false).unique_keys.nrows = 0 := by
  have hso : sortedOrderU t ds ns = [] := by
    unfold sortedOrderU
    rw [h0]
    rfl
  refine ⟨by rw [sorted_order, if_pos hok, hso], ?_, ?_, ?_, by decide, by decide⟩
  · rw [sort, sorted_order, if_pos hok, hso]; rfl
  · cases t with
    | nil => rfl
    | cons c rest =>
      show (gatherCol c []).size = 0
      cases c <;> rfl
  · rw [sort_by_key, if_pos (by simp), sorted_order, if_pos hok, hso]; rfl

/-- Claim C6, witness: the zero-sized single-column table of
`Sort.ZeroSizedColumns` with an ascending directive. -/
theorem C6_witness :
    sorted_order emptyT [.ASCENDING] [] = .ok [] ∧
    sort emptyT [.ASCENDING] [] = .ok (gatherTable emptyT []) ∧
    (gatherTable emptyT []).nrows = 0 ∧
    sort_by_key emptyT emptyT [.ASCENDING] [] = .ok (gatherTable emptyT []) ∧
    (Groupby.build gbAllNullKeys false).num_groups = 0 ∧
    (Groupby.build gbAllNullKeys false).unique_keys.nrows = 0 :=
  C6_theorem emptyT [.ASCENDING] [] (by decide) (by decide)

/-- Claim C7: group construction on the key column
`[1, 2, 3, 1, 2, 2, 1, 3, 3, 2]` (no nulls) produces exactly three groups
in ascending key order with unique keys `[1, 2, 3]` and group extents of
3, 4 and 3 rows for the keys 1, 2 and 3 respectively. -/
theorem C7_theorem :
    (Groupby.build gbBasicKeys false).num_groups = 3 ∧
    (Groupby.build gbBasicKeys false).group_indices = [0, 3, 7] ∧
    (Groupby.build gbBasicKeys false).unique_keys.map (fun c => c.cells)
      = [[.pval (.int 1), .pval (.int 2), .pval (.int 3)]] ∧
    (Groupby.build gbBasicKeys false).groupBounds.map (fun se => se.2 - se.1)
      = [3, 4, 3] :=
  ⟨by decide, by decide, rfl, by decide⟩

/-- Claim C8: slice transparency.  For every table of well-formed columns
and every `(offset, length)` slice within range, `sorted_order` on the
sliced view equals `sorted_order` on the freshly materialised table holding
exactly the view's visible rows (`gather` of the view at `0, …, len-1`);
the view's visible rows are exactly the base table's rows
`s, …, s+len-1`; and the `sort`/`sort_by_key` outputs correspond row for
row (gathering the view and gathering its materialisation by the computed
permutation give cell-identical tables). -/
theorem C8_theorem (t : Table) (s len : Nat) (ds : List SortDir) (ns : List NullOrder)
    (hwf : ∀ c ∈ t, ColWF c ∧ s + len ≤ c.size) :
    sorted_order (sliceTable t s len) ds ns
      = sorted_order (gatherTable (sliceTable t s len) (List.range len)) ds ns
    ∧ (∀ r, r < len → Table.row (sliceTable t s len) r = Table.row t (s + r))
    ∧ ∀ p, sorted_order (sliceTable t s len) ds ns = .ok p →
        ∀ r, Table.row (gatherTable (sliceTable t s len) p) r
            = Table.row (gatherTable (gatherTable (sliceTable t s len) (List.range len)) p) r := by
  have hncols : Table.ncols (gatherTable (sliceTable t s len) (List.range len))
      = Table.ncols (sliceTable t s len) := by
    simp [Table.ncols, gatherTable, sliceTable]
  refine ⟨?_, ?_, ?_⟩
  · unfold sorted_order directivesOk
    rw [hncols, slice_materialize_sortedOrderU t s len hwf ds ns]
  · intro r hr
    simp only [Table.row, sliceTable, List.map_map]
    apply List.map_congr_left
    intro c hc
    exact sliceCol_cell_lt c s len r hr (hwf c hc).2
  · intro p hok r
    unfold sorted_order at hok
    by_cases hd : directivesOk (sliceTable t s len) ds ns = true
    · rw [if_pos hd] at hok
      have hp0 : sortedOrderU (sliceTable t s len) ds ns = p := by injection hok
      have hp : ∀ x ∈ p, x < len := by
        intro x hx
        rw [← hp0] at hx
        have hm1 := (isort_mem _ _ x).mp hx
        have hm2 := List.mem_range.mp hm1
        have hm3 := nrows_slice_le t s len
        omega
      simp only [Table.row, gatherTable, sliceTable, List.map_map]
      apply List.map_congr_left
      intro c hc
      exact gather_slice_gather_cell c s len (hwf c hc).1 (hwf c hc).2 p hp r
    · rw [if_neg hd] at hok
      simp at hok

/-- Claim C8, witness: the slice `[3, 8)` of the eight-row struct table of
`Sort.WithSlicedStructColumn`, sorted ascending. -/
theorem C8_witness :
    sorted_order (sliceTable slT 3 5) [.ASCENDING] []
      = sorted_order (gatherTable (sliceTable slT 3 5) (List.range 5)) [.ASCENDING] []
    ∧ (∀ r, r < 5 → Table.row (sliceTable slT 3 5) r = Table.row slT (3 + r))
    ∧ ∀ p, sorted_order (sliceTable slT 3 5) [.ASCENDING] [] = .ok p →
        ∀ r, Table.row (gatherTable (sliceTable slT 3 5) p) r
            = Table.row (gatherTable (gatherTable (sliceTable slT 3 5) (List.range 5)) p) r := by
  refine C8_theorem slT 3 5 [.ASCENDING] [] ?_
  intro c hc
  rcases List.mem_singleton.mp hc with rfl
  refine ⟨ColWF.strct _ _ _ _ (fun ch hch => ?_) (fun ch hch => ?_), by decide⟩
  · simp only [List.mem_cons, List.not_mem_nil, or_false] at hch
    rcases hch with rfl | rfl | rfl <;> decide
  · simp only [List.mem_cons, List.not_mem_nil, or_false] at hch
    rcases hch with rfl | rfl | rfl <;> exact ColWF.prim _ _ _

/-- Claim C9: the group-by engine computes its cached state (key sort
order, group boundary offsets, sorted-order labels, original-row-space
labels) once at construction as pure functions of the key table and
null-inclusion flag, and running any sequence of public operations
(`num_groups`, `group_indices`, `unique_keys`, `sort_values`) leaves the
instance state equal to the freshly constructed one, each output being the
operation applied to the post-construction state. -/
theorem C9_theorem (keys : Table) (inc : Bool) (ops : List GbOp) :
    (Groupby.build keys inc).runOps ops
      = (ops.map (fun op => ((Groupby.build keys inc).runOp op).1), Groupby.build keys inc)
    ∧ Groupby.build keys inc
      = ⟨keys, inc, gbOrder keys, gbIds keys inc, gbLabels keys inc, gbUnsorted keys inc⟩ :=
  ⟨runOps_pure _ ops, rfl⟩

/-- Claim C10: with `include_nulls = false`, only null keys exclude a row
from grouping.  Every row whose key row is non-null has its sorted position
inside some group's boundary extent — regardless of the value column, so a
null value never removes the row from its group — and the per-group valid
counts of `sort_values` are exactly the non-null counts of the gathered
value cells within each extent.  Concretely (from `zero_valid_values` and
`null_keys_and_values`): an all-null value column over keys `[1, 1, 1]`
still forms the single group with key 1 and valid count 0; and over the
null-key fixture the group extents have sizes `{3, 4, 2, 1}` while the
valid counts are `{2, 3, 2, 0}` — null values only lower the counts, and
the key-4 group whose only value is null exists with count 0. -/
theorem C10_theorem (keys : Table) (vals : Column) (r : Nat)
    (hr : r < keys.nrows) (hnn : keyRowHasNull keys r = false) :
    (∃ gi, gi < (Groupby.build keys false).num_groups ∧
      ((Groupby.build keys false).groupBounds.getD gi (0, 0)).1
        ≤ (Groupby.build keys false).keySortedOrder.indexOf r ∧
      (Groupby.build keys false).keySortedOrder.indexOf r
        < ((Groupby.build keys false).groupBounds.getD gi (0, 0)).2) ∧
    ((Groupby.build keys false).sort_values vals).2
      = (Groupby.build keys false).groupBounds.map (fun se =>
          ((((Groupby.build keys false).keySortedOrder.map (fun q => vals.cell q)).drop
              se.1).take (se.2 - se.1)).countP (fun c => !c.isNullCell)) ∧
    (Groupby.build gbOnesKeys false).num_groups = 1 ∧
    (Groupby.build gbOnesKeys false).unique_keys.map (fun c => c.cells)
      = [[.pval (.int 1)]] ∧
    ((Groupby.build gbOnesKeys false).sort_values gbAllNullVals).2 = [0] ∧
    (Groupby.build gbNullKeys false).groupBounds.map (fun se => se.2 - se.1)
      = [3, 4, 2, 1] ∧
    ((Groupby.build gbNullKeys false).sort_values gbNullVals).2 = [2, 3, 2, 0] ∧
    (Groupby.build gbNullKeys false).unique_keys.map (fun c => c.cells)
      = [[.pval (.int 1), .pval (.int 2), .pval (.int 3), .pval (.int 4)]] := by
  have horder_len : (gbOrder keys).length = keys.nrows := by
    rw [gbOrder, sortedOrderU, (isort_perm _ _).length_eq, List.length_range]
  have hrmem : r ∈ gbOrder keys := by
    rw [gbOrder, sortedOrderU, isort_mem]
    exact List.mem_range.mpr hr
  have hposlt : (gbOrder keys).indexOf r < keys.nrows := by
    rw [← horder_len]
    exact List.indexOf_lt_length.mpr hrmem
  have hgetr : (gbOrder keys).getD ((gbOrder keys).indexOf r) 0 = r := by
    rw [List.getD_eq_getElem _ _ (by rw [horder_len]; exact hposlt)]
    exact List.getElem_indexOf _
  have hv : gbValid keys false (gbOrder keys) ((gbOrder keys).indexOf r) = true := by
    rw [gbValid, hgetr, hnn]
    rfl
  obtain ⟨gi, hgil, hgle, hglt⟩ := gb_extent_mem keys false ((gbOrder keys).indexOf r)
    hposlt hv
  have hlen2 : gi < ((gbIds keys false).tail ++ [keys.nrows]).length := by
    rw [List.length_append, List.length_tail]
    simp only [List.length_cons, List.length_nil]
    omega
  refine ⟨⟨gi, ?_, ?_, ?_⟩, rfl, by decide, rfl, by decide, by decide, by decide, rfl⟩
  · exact hgil
  · show ((((gbIds keys false).zip ((gbIds keys false).tail ++ [keys.nrows])).getD
        gi (0, 0)).1 : Nat) ≤ (gbOrder keys).indexOf r
    rw [zip_getD _ _ _ hgil hlen2]
    exact hgle
  · show (gbOrder keys).indexOf r
        < (((gbIds keys false).zip ((gbIds keys false).tail ++ [keys.nrows])).getD
            gi (0, 0)).2
    rw [zip_getD _ _ _ hgil hlen2]
    exact hglt

/-- Claim C10, witness: row 0 of the `null_keys_and_values` fixture has a
non-null key (1) and a null value; it lies inside a group extent and the
counts are as the tests expect. -/
theorem C10_witness :
    (∃ gi, gi < (Groupby.build gbNullKeys false).num_groups ∧
      ((Groupby.build gbNullKeys false).groupBounds.getD gi (0, 0)).1
        ≤ (Groupby.build gbNullKeys false).keySortedOrder.indexOf 0 ∧
      (Groupby.build gbNullKeys false).keySortedOrder.indexOf 0
        < ((Groupby.build gbNullKeys false).groupBounds.getD gi (0, 0)).2) ∧
    ((Groupby.build gbNullKeys false).sort_values gbNullVals).2
      = (Groupby.build gbNullKeys false).groupBounds.map (fun se =>
          ((((Groupby.build gbNullKeys false).keySortedOrder.map
                (fun q => gbNullVals.cell q)).drop se.1).take (se.2 - se.1)).countP
            (fun c => !c.isNullCell)) ∧
    (Groupby.build gbOnesKeys false).num_groups = 1 ∧
    (Groupby.build gbOnesKeys false).unique_keys.map (fun c => c.cells)
      = [[.pval (.int 1)]] ∧
    ((Groupby.build gbOnesKeys false).sort_values gbAllNullVals).2 = [0] ∧
    (Groupby.build gbNullKeys false).groupBounds.map (fun se => se.2 - se.1)
      = [3, 4, 2, 1] ∧
    ((Groupby.build gbNullKeys false).sort_values gbNullVals).2 = [2, 3, 2, 0] ∧
    (Groupby.build gbNullKeys false).unique_keys.map (fun c => c.cells)
      = [[.pval (.int 1), .pval (.int 2), .pval (.int 3), .pval (.int 4)]] :=
  C10_theorem gbNullKeys gbNullVals 0 (by decide) (by decide)

end Cudf
